import Mathlib

/-!
Verification of the dapka pull-request analytics pipeline.

Shallow embedding of the repository's Python sources:
  * `src/dapka/repo_utils.py` — fetching helpers (`get_list_of_all_prs`,
    `get_pr_open_closed_and_state`, `get_code_review_instructions`),
  * `src/dapka/cli.py` — `main`, the review-reconciliation and
    report-table pipeline,
  * `src/dapka/input_output.py` — `write_csv` / `read_csv`.

External child-process results (the GitHub CLI output) are inputs to the
embedded functions; the filesystem is passed explicitly.  Python `int` is
`Int`, Python `str` is `String` (or `List Char` in the CSV component,
where character-level escaping matters), absent JSON fields / `None` are
`Option`.
-/

namespace Dapka

/-- Python truthiness for an optional string: `None` and the empty string
are falsy, every other string is truthy.  Models `if pr_state[k]:`. -/
def pyTruthy : Option String → Bool
  | none => false
  | some s => !s.isEmpty

/-! ## Data model of the JSON records handled by `cli.main`

`gh pr list --json number,reviews` returns one object per pull request.
A review object carries `id`, `author.login`, `body`, `state`,
`submittedAt`; the code reads each with `.get`, so every field is
optional (`review.get("author", {}).get("login")` yields `None` when the
author object or its login is missing). -/

structure Review where
  id : Option String
  author_login : Option String
  body : Option String
  state : Option String
  submittedAt : Option String
  deriving DecidableEq, Repr

/-- One element of the `gh pr list --json number,reviews` response:
`entry.get("number")` and `entry.get("reviews", [])`.  The `number`
field is always present in the tool's JSON (it is requested in the
field list), so it is modelled as present. -/
structure Entry where
  number : Int
  reviews : List Review
  deriving DecidableEq, Repr

/-- Result of `get_pr_open_closed_and_state`: the fields of
`gh pr view --json ...` that `main` reads, plus the derived
`time_to_merge_in_seconds`.  The remaining JSON fields (updatedAt,
mergedBy, isDraft, state, closed, closedAt, number, labels, author) are
copied verbatim into the dict and never read downstream, so they are
omitted from the embedding. -/
structure PrState where
  id : Option String
  createdAt : Option String
  mergedAt : Option String
  additions : Option Int
  deletions : Option Int
  time_to_merge_in_seconds : Option Int
  deriving DecidableEq, Repr

/-- One row of the report table built by `cli.main` (the dict literals at
cli.py:102 and cli.py:133, plus the `time_to_merge_in_seconds` column
added at cli.py:148-149 from the row's `pr_state`). -/
structure Record where
  pr_number : Int
  review_id : Option String
  author_login : Option String
  body : Option String
  state : Option String
  reviewed_at : Option String
  owner : String
  repo : String
  pr_state : PrState
  additions : Option Int
  deletions : Option Int
  time_to_merge_in_seconds : Option Int
  deriving DecidableEq, Repr

/-! ## Review reconciliation (`cli.main`, lines 93-97)

`pr_2_AI_reviews` is a Python dict built by repeated assignment
`pr_2_AI_reviews[pr_num] = [...]`; assignment to an existing key
replaces its value in place, a new key is appended.  The dict is
modelled as an association list with exactly that update rule. -/

/-- Python dict assignment `d[k] = v` on an association list: replace in
place when the key exists, append otherwise. -/
def dictInsert (k : Int) (v : List Review) : List (Int × List Review) → List (Int × List Review)
  | [] => [(k, v)]
  | (k', v') :: rest => if k' = k then (k, v) :: rest else (k', v') :: dictInsert k v rest

/-- The filter at cli.py:97: keep the reviews whose `author.login`
equals the configured `--AILogin`. -/
def aiFilter (login : String) (reviews : List Review) : List Review :=
  reviews.filter (fun r => decide (r.author_login = some login))

/-- The loop at cli.py:94-97: build `pr_2_AI_reviews` mapping each
entry's PR number to its qualifying reviews. -/
def aiPartition (login : String) (entries : List Entry) : List (Int × List Review) :=
  entries.foldl (fun d e => dictInsert e.number (aiFilter login e.reviews) d) []

/-- The AI-review row built at cli.py:102-114 for a dict item
`(key, review)`; `pr_state = get_pr_open_closed_and_state(owner, repo, key)`
is modelled by the oracle `detail` (the external tool is assumed to
answer identically for repeated queries of the same PR within a run).
The `time_to_merge_in_seconds` column added later at cli.py:148 copies
`pr_state['time_to_merge_in_seconds']`. -/
def aiRecord (owner repo : String) (detail : Int → PrState) (n : Int) (r : Review) : Record :=
  { pr_number := n
    review_id := r.id
    author_login := r.author_login
    body := r.body
    state := r.state
    reviewed_at := r.submittedAt
    owner := owner
    repo := repo
    pr_state := detail n
    additions := (detail n).additions
    deletions := (detail n).deletions
    time_to_merge_in_seconds := (detail n).time_to_merge_in_seconds }

/-- The AI part of the table (`records` / `df`, cli.py:98-115): one row
per (PR, qualifying review) pair, iterating the dict in insertion
order. -/
def aiRecords (owner repo : String) (detail : Int → PrState) (login : String)
    (entries : List Entry) : List Record :=
  (aiPartition login entries).flatMap (fun p => p.2.map (aiRecord owner repo detail p.1))

/-! ## Non-AI sampling (`cli.main`, lines 121-146) -/

/-- `ai_review_pr_numbers = [int(value) for value in df['pr_number'].values]`
(cli.py:121): the PR numbers of the AI rows, with multiplicity. -/
def ai_review_pr_numbers (recs : List Record) : List Int :=
  recs.map (fun r => r.pr_number)

/-- `list(set(latest_prs) - set(ai_review_pr_numbers))` (cli.py:124).
CPython iterates a set in hash-table order, which is
implementation-defined; the embedding fixes one concrete duplicate-free
enumeration of the same set of numbers.  Every claim about this list is
insensitive to the enumeration order of the set difference. -/
def list_set_diff (latest ai : List Int) : List Int :=
  (latest.filter (fun u => decide (u ∉ ai))).dedup

/-- The slice at cli.py:130:
`non_ai_prs[:2*len(ai_review_pr_numbers)]`. -/
def sampled_non_ai (latest ai : List Int) : List Int :=
  (list_set_diff latest ai).take (2 * ai.length)

/-- The non-AI row built at cli.py:133-145 (`review_id` is the PR
detail's own `id`, the textual fields are fixed markers). -/
def nonAiRecord (owner repo : String) (detail : Int → PrState) (n : Int) : Record :=
  { pr_number := n
    review_id := (detail n).id
    author_login := some "Non-AI Review"
    body := some "N/A"
    state := some "N/A"
    reviewed_at := some "N/A"
    owner := owner
    repo := repo
    pr_state := detail n
    additions := (detail n).additions
    deletions := (detail n).deletions
    time_to_merge_in_seconds := (detail n).time_to_merge_in_seconds }

/-- The non-AI rows before filtering (`non_ai_prs_df`, cli.py:128-146). -/
def nonAiRecords (owner repo : String) (detail : Int → PrState) (latest ai : List Int) :
    List Record :=
  (sampled_non_ai latest ai).map (nonAiRecord owner repo detail)

/-- The filter at cli.py:152:
`non_ai_prs_df[~non_ai_prs_df['time_to_merge_in_seconds'].isna()]` —
drop non-AI rows whose time-to-merge is null (`None` becomes pandas
`NaN`).  Note this filter is applied to the non-AI frame only. -/
def nonAiKept (owner repo : String) (detail : Int → PrState) (latest ai : List Int) :
    List Record :=
  (nonAiRecords owner repo detail latest ai).filter
    (fun r => decide (r.time_to_merge_in_seconds ≠ none))

/-- The table returned by `main` (cli.py:153):
`pd.concat([df, non_ai_prs_df], ignore_index=True)` — the AI rows
(unfiltered) followed by the filtered non-AI rows.  `entries` is the
`get_pr_comments` response, `latest` the `get_list_of_all_prs`
response, `detail` the `get_pr_open_closed_and_state` oracle.

A run that builds an empty record list along the way does not return a
table: `pd.DataFrame([])` has no columns, so with no AI rows
`df['pr_number']` raises `KeyError` at cli.py:121 (and `df['pr_state']`
at cli.py:148 would too), and with an empty non-AI sample
`non_ai_prs_df['pr_state']` raises `KeyError` at cli.py:149; both
uncaught exceptions are modelled as `.error ()`. -/
def finalTable (owner repo : String) (detail : Int → PrState) (login : String)
    (entries : List Entry) (latest : List Int) : Except Unit (List Record) :=
  let ai := aiRecords owner repo detail login entries
  if ai = [] then .error ()
  else if nonAiRecords owner repo detail latest (ai_review_pr_numbers ai) = [] then
    .error ()
  else .ok (ai ++ nonAiKept owner repo detail latest (ai_review_pr_numbers ai))

/-! ## Timestamps (`repo_utils.get_pr_open_closed_and_state`, lines 165-172)

`datetime.strptime(s, "%Y-%m-%dT%H:%M:%SZ")` parses the fixed UTC
format gh emits (zero-padded ISO-8601; Python additionally tolerates
unpadded month/day/hour/minute/second widths, which gh never emits and
which are not modelled).  Subtraction of two such naive datetimes
followed by `.total_seconds()` is exact whole seconds (both operands
have second resolution and the magnitude is far below 2^53), so the
result is modelled as `Int`. -/

structure Timestamp where
  year : Nat
  month : Nat
  day : Nat
  hour : Nat
  minute : Nat
  second : Nat
  deriving DecidableEq, Repr

/-- Numeric value of a decimal digit character. -/
def digit (c : Char) : Option Nat :=
  if '0' ≤ c ∧ c ≤ '9' then some (c.toNat - '0'.toNat) else none

/-- Proleptic Gregorian leap-year rule (as in Python's `datetime`). -/
def isLeap (y : Nat) : Bool :=
  y % 4 = 0 && (y % 100 ≠ 0 || y % 400 = 0)

/-- Length of a month in the proleptic Gregorian calendar. -/
def daysInMonth (y m : Nat) : Nat :=
  if m = 2 then (if isLeap y then 29 else 28)
  else if m = 4 ∨ m = 6 ∨ m = 9 ∨ m = 11 then 30
  else 31

/-- Days in all years strictly before year `y` (year 1 is day 0),
matching `date.toordinal`'s `_days_before_year`. -/
def daysBeforeYear (y : Nat) : Nat :=
  365 * (y - 1) + (y - 1) / 4 - (y - 1) / 100 + (y - 1) / 400

/-- Days in the months of year `y` strictly before month `m`. -/
def daysBeforeMonth (y m : Nat) : Nat :=
  ((List.range (m - 1)).map (fun i => daysInMonth y (i + 1))).sum

/-- `date.toordinal` minus 1: day index of the timestamp's date. -/
def toOrdinal (t : Timestamp) : Nat :=
  daysBeforeYear t.year + daysBeforeMonth t.year t.month + (t.day - 1)

/-- Seconds from the calendar origin to the timestamp. -/
def dtSeconds (t : Timestamp) : Nat :=
  toOrdinal t * 86400 + t.hour * 3600 + t.minute * 60 + t.second

/-- Field validation performed by the `datetime` constructor invoked by
`strptime` (`MINYEAR = 1`; day checked against the month length). -/
def mkValidTimestamp (y mo d h mi s : Nat) : Option Timestamp :=
  if 1 ≤ y ∧ 1 ≤ mo ∧ mo ≤ 12 ∧ 1 ≤ d ∧ d ≤ daysInMonth y mo ∧ h ≤ 23 ∧ mi ≤ 59 ∧ s ≤ 59
  then some ⟨y, mo, d, h, mi, s⟩ else none

/-- `datetime.strptime(s, "%Y-%m-%dT%H:%M:%SZ")` on gh's zero-padded
timestamps: exactly 20 characters with literal separators, all-digit
fields, validated ranges.  `none` models the `ValueError` raised on
anything else. -/
def strptimeZ (s : String) : Option Timestamp :=
  match s.data with
  | [y1, y2, y3, y4, '-', m1, m2, '-', d1, d2, 'T', h1, h2, ':', n1, n2, ':', s1, s2, 'Z'] => do
      let a ← digit y1; let b ← digit y2; let c ← digit y3; let d ← digit y4
      let mo1 ← digit m1; let mo2 ← digit m2
      let d1v ← digit d1; let d2v ← digit d2
      let h1v ← digit h1; let h2v ← digit h2
      let n1v ← digit n1; let n2v ← digit n2
      let s1v ← digit s1; let s2v ← digit s2
      mkValidTimestamp (((a * 10 + b) * 10 + c) * 10 + d) (mo1 * 10 + mo2)
        (d1v * 10 + d2v) (h1v * 10 + h2v) (n1v * 10 + n2v) (s1v * 10 + s2v)
  | _ => none

/-- Lines 165-172 of `repo_utils.py`: when both `createdAt` and
`mergedAt` are truthy (present and non-empty), parse both and take the
difference in seconds; otherwise the derived field is `None`.  A parse
failure is an uncaught `ValueError` (`.error ()`), per the spec's
edge-case policy. -/
def timeToMergeSeconds (createdAt mergedAt : Option String) : Except Unit (Option Int) :=
  if pyTruthy createdAt && pyTruthy mergedAt then
    match strptimeZ (createdAt.getD ""), strptimeZ (mergedAt.getD "") with
    | some tc, some tm => .ok (some ((dtSeconds tm : Int) - (dtSeconds tc : Int)))
    | _, _ => .error ()
  else
    .ok none

/-- The parsed-JSON input of `get_pr_open_closed_and_state` (the fields
it reads; the others are copied through unread, see `PrState`). -/
structure PrJson where
  id : Option String
  createdAt : Option String
  mergedAt : Option String
  additions : Option Int
  deletions : Option Int
  deriving DecidableEq, Repr

/-- Assembling the returned dict from the JSON fields and the derived
time-to-merge. -/
def prStateOf (j : PrJson) (t : Option Int) : PrState :=
  { id := j.id
    createdAt := j.createdAt
    mergedAt := j.mergedAt
    additions := j.additions
    deletions := j.deletions
    time_to_merge_in_seconds := t }

/-- `get_pr_open_closed_and_state` (repo_utils.py:142-173), given the
decoded JSON of `gh pr view` (the subprocess-failure path is the same
propagation as in `get_list_of_all_prs` and is modelled there). -/
def get_pr_open_closed_and_state (j : PrJson) : Except Unit PrState :=
  match timeToMergeSeconds j.createdAt j.mergedAt with
  | .ok t => .ok (prStateOf j t)
  | .error e => .error e

/-! ## `get_list_of_all_prs` (repo_utils.py:79-112) -/

/-- Captured result of the external `gh ... | jq ...` pipeline. -/
structure CmdResult where
  returncode : Int
  stdout : String
  stderr : String
  deriving DecidableEq, Repr

/-- The exceptions `get_list_of_all_prs` can raise:
`subprocess.CalledProcessError` (re-raised, carrying exit code, stdout
and stderr) and `ValueError` from `int()` on a non-numeric line. -/
inductive RunError where
  | calledProcessError (returncode : Int) (stdout stderr : String)
  | valueError
  deriving DecidableEq, Repr

/-- `subprocess.run(cmd, shell=True, check=True, capture_output=True,
text=True)`: with `check=True` a non-zero exit status raises
`CalledProcessError`; otherwise the captured stdout is returned. -/
def runCommand (r : CmdResult) : Except RunError String :=
  if r.returncode = 0 then .ok r.stdout
  else .error (.calledProcessError r.returncode r.stdout r.stderr)

/-- Digit-string value; `none` on empty or non-digit input. -/
def digitsVal : List Char → Option Nat
  | [] => none
  | cs => cs.foldlM (fun acc c => (digit c).map (fun d => acc * 10 + d)) 0

/-- `str.split('\n')` on the character list: the segments between
newline characters (`"".split('\n') == ['']`). -/
def splitNl : List Char → List (List Char)
  | [] => [[]]
  | '\n' :: rest => [] :: splitNl rest
  | c :: rest =>
    match splitNl rest with
    | [] => [[c]]
    | seg :: segs => (c :: seg) :: segs

/-- ASCII whitespace stripped by `int()` (jq output contains at most
these; Python also strips some Unicode space characters, never emitted
by jq). -/
def isPySpace (c : Char) : Bool :=
  c = ' ' ∨ c = '\t' ∨ c = '\n' ∨ c = '\r' ∨ c = '\x0b' ∨ c = '\x0c'

/-- `str.strip()` over characters. -/
def stripWs (cs : List Char) : List Char :=
  ((cs.dropWhile isPySpace).reverse.dropWhile isPySpace).reverse

/-- `int(s)` for the decimal strings jq prints: optional surrounding
whitespace, optional sign, digits (Python's underscore digit grouping
never occurs in jq output and is not modelled). -/
def pyInt (cs : List Char) : Option Int :=
  match stripWs cs with
  | '-' :: rest => (digitsVal rest).map (fun n => -(n : Int))
  | '+' :: rest => (digitsVal rest).map (fun n => (n : Int))
  | rest => (digitsVal rest).map (fun n => (n : Int))

/-- `get_list_of_all_prs` (repo_utils.py:102-112) applied to the
pipeline's result: re-raise on non-zero exit, else
`[int(pr_num) for pr_num in stdout.split('\n') if len(pr_num) > 0]`. -/
def get_list_of_all_prs (r : CmdResult) : Except RunError (List Int) := do
  let out ← runCommand r
  ((splitNl out.data).filter (fun line => decide (line.length > 0))).mapM
    (fun line =>
      match pyInt line with
      | some n => Except.ok n
      | none => Except.error RunError.valueError)

/-! ## `get_code_review_instructions` (repo_utils.py:54-77) -/

/-- State of the custom-instructions file at the given path. -/
inductive FsFile where
  | present (content : String)
  | absent
  deriving DecidableEq, Repr

/-- A message emitted through the module logger. -/
inductive LogEvent where
  | info (msg : String)
  | warning (msg : String)
  deriving DecidableEq, Repr

/-- `get_code_review_instructions`: read the file and return its
content; on `FileNotFoundError` log a warning and return `None`.  The
result is the returned value paired with the log events emitted; there
is no error outcome — the missing-file case is caught. -/
def get_code_review_instructions (filepath_and_name : String) (file : FsFile) :
    Option String × List LogEvent :=
  match file with
  | .present content =>
      (some content,
        [.info ("Loaded custom instructions from " ++ filepath_and_name)])
  | .absent =>
      (none,
        [.warning ("Custom instructions file " ++ filepath_and_name ++
          " not found. Using default instructions.")])

/-! ## Lemmas about the dict model -/

theorem dictInsert_of_not_mem_keys {k : Int} {v : List Review} {d : List (Int × List Review)}
    (h : k ∉ d.map Prod.fst) : dictInsert k v d = d ++ [(k, v)] := by
  induction d with
  | nil => rfl
  | cons p rest ih =>
    obtain ⟨k', v'⟩ := p
    simp only [List.map_cons, List.mem_cons, not_or] at h
    simp only [dictInsert, if_neg (fun hh : k' = k => h.1 hh.symm), List.cons_append,
      ih h.2]

theorem mem_keys_dictInsert {x k : Int} {v : List Review} {d : List (Int × List Review)} :
    x ∈ (dictInsert k v d).map Prod.fst ↔ x = k ∨ x ∈ d.map Prod.fst := by
  induction d with
  | nil => simp [dictInsert]
  | cons p rest ih =>
    obtain ⟨k', v'⟩ := p
    by_cases h : k' = k
    · subst h
      simp [dictInsert]
    · simp [dictInsert, h, ih]
      tauto

theorem nodup_keys_dictInsert {k : Int} {v : List Review} {d : List (Int × List Review)}
    (h : (d.map Prod.fst).Nodup) : ((dictInsert k v d).map Prod.fst).Nodup := by
  induction d with
  | nil => simp [dictInsert]
  | cons p rest ih =>
    obtain ⟨k', v'⟩ := p
    simp only [List.map_cons, List.nodup_cons] at h
    simp only [dictInsert]
    by_cases hk : k' = k
    · subst hk
      rw [if_pos rfl]
      simp only [List.map_cons, List.nodup_cons]
      exact ⟨h.1, h.2⟩
    · rw [if_neg hk]
      simp only [List.map_cons, List.nodup_cons]
      refine ⟨?_, ih h.2⟩
      rw [mem_keys_dictInsert]
      rintro (rfl | hmem)
      · exact hk rfl
      · exact h.1 hmem

theorem nodup_keys_aiPartition (login : String) (entries : List Entry) :
    ((aiPartition login entries).map Prod.fst).Nodup := by
  suffices h : ∀ acc : List (Int × List Review), (acc.map Prod.fst).Nodup →
      ((entries.foldl (fun d e => dictInsert e.number (aiFilter login e.reviews) d)
        acc).map Prod.fst).Nodup by
    exact h [] (by simp)
  induction entries with
  | nil => intro acc hacc; simpa using hacc
  | cons e rest ih =>
    intro acc hacc
    exact ih _ (nodup_keys_dictInsert hacc)

theorem foldl_dictInsert_eq_append (login : String) (es : List Entry) :
    ∀ acc : List (Int × List Review),
      (∀ e ∈ es, e.number ∉ acc.map Prod.fst) → (es.map Entry.number).Nodup →
      es.foldl (fun d e => dictInsert e.number (aiFilter login e.reviews) d) acc
        = acc ++ es.map (fun e => (e.number, aiFilter login e.reviews)) := by
  induction es with
  | nil => intro acc _ _; simp
  | cons e rest ih =>
    intro acc hdisj hnodup
    simp only [List.map_cons, List.nodup_cons] at hnodup
    rw [List.foldl_cons, dictInsert_of_not_mem_keys (hdisj e (List.mem_cons_self e rest)),
      ih (acc ++ [(e.number, aiFilter login e.reviews)]) ?_ hnodup.2]
    · simp
    · intro e' he'
      simp only [List.map_append, List.mem_append, List.map_cons, List.map_nil,
        List.mem_singleton, not_or]
      refine ⟨hdisj e' (List.mem_cons_of_mem e he'), ?_⟩
      intro hnum
      exact hnodup.1 (hnum ▸ List.mem_map_of_mem Entry.number he')

theorem aiPartition_eq_map (login : String) (entries : List Entry)
    (hnodup : (entries.map Entry.number).Nodup) :
    aiPartition login entries
      = entries.map (fun e => (e.number, aiFilter login e.reviews)) := by
  simpa using foldl_dictInsert_eq_append login entries [] (by simp) hnodup

theorem lookup_eq_none_of_not_mem_keys {n : Int} {l : List (Int × List Review)}
    (h : n ∉ l.map Prod.fst) : l.lookup n = none := by
  induction l with
  | nil => rfl
  | cons p rest ih =>
    obtain ⟨k, v⟩ := p
    simp only [List.map_cons, List.mem_cons, not_or] at h
    have hbeq : (n == k) = false := beq_eq_false_iff_ne.mpr h.1
    simp [List.lookup, hbeq, ih h.2]

theorem lookup_map_entries (login : String) (es : List Entry) (e : Entry)
    (hnodup : (es.map Entry.number).Nodup) (he : e ∈ es) :
    (es.map (fun e' => (e'.number, aiFilter login e'.reviews))).lookup e.number
      = some (aiFilter login e.reviews) := by
  induction es with
  | nil => cases he
  | cons a rest ih =>
    simp only [List.map_cons, List.nodup_cons] at hnodup
    rcases List.mem_cons.mp he with rfl | hmem
    · simp [List.lookup]
    · have hne : (e.number == a.number) = false := by
        refine beq_eq_false_iff_ne.mpr ?_
        intro hh
        exact hnodup.1 (hh ▸ List.mem_map_of_mem Entry.number hmem)
      simp [List.lookup, hne, ih hnodup.2 hmem]

theorem lookup_map_entries_sound (login : String) (es : List Entry) (n : Int)
    (revs : List Review)
    (h : (es.map (fun e' => (e'.number, aiFilter login e'.reviews))).lookup n
      = some revs) :
    ∃ e ∈ es, revs = aiFilter login e.reviews := by
  induction es with
  | nil => cases h
  | cons a rest ih =>
    rw [List.map_cons] at h
    by_cases hbeq : n == a.number
    · refine ⟨a, List.mem_cons_self a rest, ?_⟩
      simp [List.lookup, hbeq] at h
      exact h.symm
    · simp only [List.lookup, Bool.not_eq_true] at h
      rw [Bool.not_eq_true] at hbeq
      simp only [hbeq] at h
      obtain ⟨e, he, hrev⟩ := ih h
      exact ⟨e, List.mem_cons_of_mem a he, hrev⟩

theorem flatMap_filter_pr_number (owner repo : String) (detail : Int → PrState)
    (ps : List (Int × List Review)) (n : Int) (h : (ps.map Prod.fst).Nodup) :
    (ps.flatMap (fun p => p.2.map (aiRecord owner repo detail p.1))).filter
        (fun rec => decide (rec.pr_number = n))
      = ((ps.lookup n).getD []).map (aiRecord owner repo detail n) := by
  induction ps with
  | nil => simp [List.lookup]
  | cons p rest ih =>
    obtain ⟨k, revs⟩ := p
    simp only [List.map_cons, List.nodup_cons] at h
    rw [List.flatMap_cons, List.filter_append, ih h.2, List.filter_map]
    by_cases hk : k = n
    · subst hk
      have h1 : List.lookup k ((k, revs) :: rest) = some revs := by simp [List.lookup]
      have h2 : (fun rec => decide (rec.pr_number = k)) ∘ aiRecord owner repo detail k
          = fun _ => true := by
        funext r
        simp [aiRecord]
      have h3 : List.lookup k rest = none := lookup_eq_none_of_not_mem_keys h.1
      rw [h1, h2, h3, List.filter_true]
      simp
    · have h1 : List.lookup n ((k, revs) :: rest) = List.lookup n rest := by
        have hbeq : (n == k) = false := beq_eq_false_iff_ne.mpr (fun hh => hk hh.symm)
        simp [List.lookup, hbeq]
      have h2 : (fun rec => decide (rec.pr_number = n)) ∘ aiRecord owner repo detail k
          = fun _ => false := by
        funext r
        simp [aiRecord, hk]
      rw [h1, h2, List.filter_false]
      simp

/-! ## Claim C1 -/

/-- C1 as stated is false: with `U = []` (no PRs listed) and
`A = [1]` (one AI-reviewed PR number), `A ∪ (U − A)` is not a subset of
`U` — nothing in `main` links the two independently fetched lists. -/
theorem C1_counterexample :
    ¬ ((∀ a ∈ ([1] : List Int), a ∉ list_set_diff [] [1]) ∧
        ∀ x : Int, x ∈ ([1] : List Int) ∨ x ∈ list_set_diff [] [1] → x ∈ ([] : List Int)) := by
  intro h
  exact absurd (h.2 1 (Or.inl (by decide))) (by decide)

/-- C1 (amended): provided every AI-reviewed PR number occurs in the
list `U` of all PR numbers, the set difference `non_ai = U − A`
computed at cli.py:124 contains no element of `A`, and `A ∪ non_ai` is
contained in `U`. -/
theorem C1_non_ai_set_difference (U A : List Int) (hAU : ∀ a ∈ A, a ∈ U) :
    (∀ a ∈ A, a ∉ list_set_diff U A) ∧
      (∀ x : Int, x ∈ A ∨ x ∈ list_set_diff U A → x ∈ U) := by
  constructor
  · intro a ha hmem
    rw [list_set_diff, List.mem_dedup, List.mem_filter] at hmem
    exact absurd ha (by simpa using hmem.2)
  · intro x hx
    rcases hx with h | h
    · exact hAU x h
    · rw [list_set_diff, List.mem_dedup, List.mem_filter] at h
      exact h.1

/-- Witness for C1 at `U = [1, 2]`, `A = [1]`. -/
theorem C1_witness :
    (∀ a ∈ ([1] : List Int), a ∉ list_set_diff [1, 2] [1]) ∧
      (∀ x : Int, x ∈ ([1] : List Int) ∨ x ∈ list_set_diff [1, 2] [1] →
        x ∈ ([1, 2] : List Int)) :=
  C1_non_ai_set_difference [1, 2] [1] (by decide)

/-! ## Claim C4 -/

/-- C4: for each fetched entry (one entry per PR, i.e. pairwise
distinct PR numbers, per the data model's unique-join-key invariant) a
review lands in the AI-reviewed partition `pr_2_AI_reviews` exactly
when its author login equals the target login; and unconditionally on
the dict's shape, every review stored in the partition has the target
login, so a review with a different login never appears in it. -/
theorem C4_partition_by_login (login : String) (entries : List Entry)
    (hnodup : (entries.map Entry.number).Nodup) :
    (∀ e ∈ entries, ∀ r ∈ e.reviews,
        (r ∈ ((aiPartition login entries).lookup e.number).getD []
          ↔ r.author_login = some login)) ∧
      (∀ n revs, (aiPartition login entries).lookup n = some revs →
        ∀ r ∈ revs, r.author_login = some login) := by
  have hpart := aiPartition_eq_map login entries hnodup
  constructor
  · intro e he r hr
    rw [hpart, lookup_map_entries login entries e hnodup he]
    simp [aiFilter, List.mem_filter, hr]
  · intro n revs hlook r hrrevs
    rw [hpart] at hlook
    obtain ⟨e, _, rfl⟩ := lookup_map_entries_sound login entries n revs hlook
    have := List.mem_filter.mp hrrevs
    simpa using this.2

/-- Sample reviews and entries used by witnesses and counterexamples
(the spec's §8 scenario: PR 1 and PR 3 have one qualifying review each,
PR 2 has only a human review). -/
def revA : Review :=
  ⟨some "rev1", some "copilot-pull-request-reviewer", some "looks good", some "APPROVED",
    some "2024-01-01T00:00:00Z"⟩

def revA2 : Review :=
  ⟨some "rev2", some "copilot-pull-request-reviewer", some "second pass", some "COMMENTED",
    some "2024-01-03T00:00:00Z"⟩

def revH : Review :=
  ⟨some "rev3", some "alice", some "human note", some "COMMENTED",
    some "2024-01-02T00:00:00Z"⟩

def loginA : String := "copilot-pull-request-reviewer"

def entriesScenario : List Entry := [⟨1, [revA]⟩, ⟨2, [revH]⟩, ⟨3, [revA2]⟩]

/-- Witness for C4 on the spec's §8 scenario. -/
theorem C4_witness :
    (∀ e ∈ entriesScenario, ∀ r ∈ e.reviews,
        (r ∈ ((aiPartition loginA entriesScenario).lookup e.number).getD []
          ↔ r.author_login = some loginA)) ∧
      (∀ n revs, (aiPartition loginA entriesScenario).lookup n = some revs →
        ∀ r ∈ revs, r.author_login = some loginA) :=
  C4_partition_by_login loginA entriesScenario (by decide)

/-! ## Claim C5 -/

/-- C5: the AI part of the table emits, for each PR number `n`, exactly
one row per qualifying review recorded for `n` in `pr_2_AI_reviews` —
the rows of the AI part with `pr_number = n` are precisely the mapped
qualifying reviews, with no deduplication, so their count equals `k`,
the number of qualifying reviews of that PR. -/
theorem C5_one_row_per_qualifying_review (owner repo : String) (detail : Int → PrState)
    (login : String) (entries : List Entry) (n : Int) :
    (aiRecords owner repo detail login entries).filter
        (fun rec => decide (rec.pr_number = n))
        = (((aiPartition login entries).lookup n).getD []).map
          (aiRecord owner repo detail n) ∧
      ((aiRecords owner repo detail login entries).filter
          (fun rec => decide (rec.pr_number = n))).length
        = (((aiPartition login entries).lookup n).getD []).length := by
  have h := flatMap_filter_pr_number owner repo detail (aiPartition login entries) n
    (nodup_keys_aiPartition login entries)
  rw [aiRecords]
  exact ⟨h, by rw [h, List.length_map]⟩

/-! ## Claim C3 -/

/-- The quantity the claim (and spec §4.3) names: the number of
DISTINCT AI-reviewed pull requests, i.e. partition entries that keep at
least one qualifying review.  Stated from the claim's words, to be
compared with the multiplier the code actually uses. -/
def distinctAiPrCount (login : String) (entries : List Entry) : Nat :=
  ((aiPartition login entries).filter (fun p => decide (p.2 ≠ []))).length

/-- A fully merged PR detail, used in witnesses and counterexamples. -/
def prStateMerged : PrState :=
  ⟨some "pid", some "2024-01-01T00:00:00Z", some "2024-01-02T00:00:00Z", some 10, some 2,
    some 86400⟩

/-- One PR with two qualifying reviews. -/
def entriesTwoReviews : List Entry := [⟨1, [revA, revA2]⟩]

/-- C3 as stated is false: with one AI-reviewed PR carrying two
qualifying reviews and non-AI PRs 2..6, cli.py:130 samples the first
`2 * len(ai_review_pr_numbers)` = 4 non-AI numbers (one list entry per
AI review ROW), not the first `2 × 1 = 2` that "2 × distinct
AI-reviewed pull requests" would give. -/
theorem C3_counterexample :
    ¬ ((nonAiRecords "acme" "widgets" (fun _ => prStateMerged) [2, 3, 4, 5, 6]
          (ai_review_pr_numbers
            (aiRecords "acme" "widgets" (fun _ => prStateMerged) loginA
              entriesTwoReviews))).map (fun rec => rec.pr_number)
        = (list_set_diff [2, 3, 4, 5, 6]
            (ai_review_pr_numbers
              (aiRecords "acme" "widgets" (fun _ => prStateMerged) loginA
                entriesTwoReviews))).take
            (2 * distinctAiPrCount loginA entriesTwoReviews)) := by
  decide

/-- C3 (amended): the non-AI rows built in `main` are exactly the rows
of the first `2 × R` entries of the non-AI PR-number list, where `R` is
the number of AI review ROWS — the qualifying reviews counted with
multiplicity across PRs — not the number of distinct AI-reviewed PRs. -/
theorem C3_sample_first_twice_rows (owner repo : String) (detail : Int → PrState)
    (login : String) (entries : List Entry) (latest : List Int) :
    (nonAiRecords owner repo detail latest
          (ai_review_pr_numbers (aiRecords owner repo detail login entries))).map
        (fun rec => rec.pr_number)
      = (list_set_diff latest
            (ai_review_pr_numbers (aiRecords owner repo detail login entries))).take
          (2 * (aiRecords owner repo detail login entries).length) ∧
      (aiRecords owner repo detail login entries).length
        = ((aiPartition login entries).map (fun p => p.2.length)).sum := by
  constructor
  · rw [nonAiRecords, sampled_non_ai, List.map_map]
    have hlen : (ai_review_pr_numbers (aiRecords owner repo detail login entries)).length
        = (aiRecords owner repo detail login entries).length := by
      rw [ai_review_pr_numbers, List.length_map]
    have hcomp : ((fun rec : Record => rec.pr_number) ∘ nonAiRecord owner repo detail)
        = fun n => n := by
      funext n
      rfl
    rw [hlen, hcomp]
    exact List.map_id' _
  · rw [aiRecords]
    rw [List.length_flatMap]
    congr 1
    apply List.map_congr_left
    intro p _
    simp [Function.comp, List.length_map]

/-! ## Claim C2 -/

/-- An unmerged PR detail: `mergedAt` absent, null time-to-merge. -/
def prStateNone : PrState :=
  ⟨some "pid0", some "2024-01-01T00:00:00Z", none, some 10, some 2, none⟩

/-- One PR with a single qualifying review. -/
def entriesOneAi : List Entry := [⟨1, [revA]⟩]

/-- A detail oracle answering "never merged" for PR 1 and "merged a day
later" for every other PR. -/
def detailMixed : Int → PrState :=
  fun n => if n = 1 then prStateNone else prStateMerged

/-- C2 as stated is false on a completing run of `main`: PR 1 is
AI-reviewed but never merged (null time-to-merge), PR 2 is a merged
non-AI PR, so both frames are non-empty and `main` returns a table —
and that table still contains the AI row with a null time-to-merge,
because the isna filter at cli.py:152 is applied to the non-AI frame
only. -/
theorem C2_counterexample :
    finalTable "acme" "widgets" detailMixed loginA entriesOneAi [2]
        = .ok (aiRecords "acme" "widgets" detailMixed loginA entriesOneAi ++
            nonAiKept "acme" "widgets" detailMixed [2]
              (ai_review_pr_numbers
                (aiRecords "acme" "widgets" detailMixed loginA entriesOneAi))) ∧
      ∃ rec ∈ aiRecords "acme" "widgets" detailMixed loginA entriesOneAi ++
          nonAiKept "acme" "widgets" detailMixed [2]
            (ai_review_pr_numbers
              (aiRecords "acme" "widgets" detailMixed loginA entriesOneAi)),
        rec.time_to_merge_in_seconds = none := by
  exact ⟨rfl, by decide⟩

/-- C2 (amended): a PR detail whose mergedAt is absent (or empty) gets
a null `time_to_merge_in_seconds`, and rows with a null time-to-merge
are excluded from the NON-AI portion of the final table only — AI-review
rows with a null time-to-merge are retained (see the counterexample). -/
theorem C2_null_time_rows (j : PrJson) (owner repo : String) (detail : Int → PrState)
    (latest ai : List Int) :
    (pyTruthy j.mergedAt = false →
        get_pr_open_closed_and_state j = .ok (prStateOf j none)) ∧
      (∀ rec ∈ nonAiKept owner repo detail latest ai,
        rec.time_to_merge_in_seconds ≠ none) := by
  constructor
  · intro h
    simp [get_pr_open_closed_and_state, timeToMergeSeconds, h]
  · intro rec hrec
    have hmem := List.mem_filter.mp hrec
    simpa using hmem.2

/-- Witness for C2 at a concrete unmerged detail and a concrete kept
non-AI row. -/
theorem C2_witness :
    get_pr_open_closed_and_state ⟨none, some "2024-01-01T00:00:00Z", none, some 3, some 1⟩
        = .ok (prStateOf ⟨none, some "2024-01-01T00:00:00Z", none, some 3, some 1⟩ none) ∧
      (nonAiRecord "acme" "widgets" (fun _ => prStateMerged) 5).time_to_merge_in_seconds
        ≠ none :=
  ⟨(C2_null_time_rows ⟨none, some "2024-01-01T00:00:00Z", none, some 3, some 1⟩ "acme"
      "widgets" (fun _ => prStateMerged) [1, 5] [1]).1 rfl,
    (C2_null_time_rows ⟨none, some "2024-01-01T00:00:00Z", none, some 3, some 1⟩ "acme"
      "widgets" (fun _ => prStateMerged) [1, 5] [1]).2
      (nonAiRecord "acme" "widgets" (fun _ => prStateMerged) 5) (by decide)⟩

/-! ## Claim C6 -/

theorem strptimeZ_ne_empty {s : String} {t : Timestamp} (h : strptimeZ s = some t) :
    s ≠ "" := by
  intro hs
  subst hs
  have hnone : strptimeZ "" = none := rfl
  rw [hnone] at h
  cases h

theorem pyTruthy_some_of_ne {s : String} (h : s ≠ "") : pyTruthy (some s) = true := by
  have hemp : s.isEmpty = false := by
    rw [Bool.eq_false_iff]
    intro he
    exact h ((String.isEmpty_iff s).mp he)
  simp [pyTruthy, hemp]

/-- C6: when createdAt and mergedAt are both present in the fixed UTC
format, `get_pr_open_closed_and_state` derives the time-to-merge as
mergedAt minus createdAt in seconds; in particular the pair
2024-01-01T00:00:00Z / 2024-01-02T00:00:00Z yields exactly 86400. -/
theorem C6_time_to_merge_seconds (j : PrJson) (c m : String) (tc tm : Timestamp)
    (hc : j.createdAt = some c) (hm : j.mergedAt = some m)
    (hpc : strptimeZ c = some tc) (hpm : strptimeZ m = some tm) :
    get_pr_open_closed_and_state j
        = .ok (prStateOf j (some ((dtSeconds tm : Int) - (dtSeconds tc : Int)))) ∧
      timeToMergeSeconds (some "2024-01-01T00:00:00Z") (some "2024-01-02T00:00:00Z")
        = .ok (some 86400) := by
  refine ⟨?_, rfl⟩
  have h3 : timeToMergeSeconds j.createdAt j.mergedAt
      = .ok (some ((dtSeconds tm : Int) - (dtSeconds tc : Int))) := by
    rw [hc, hm]
    simp only [timeToMergeSeconds, pyTruthy_some_of_ne (strptimeZ_ne_empty hpc),
      pyTruthy_some_of_ne (strptimeZ_ne_empty hpm), Bool.and_self, if_true,
      Option.getD_some, hpc, hpm]
  simp only [get_pr_open_closed_and_state, h3]

/-- Witness for C6 at the claim's concrete timestamps. -/
theorem C6_witness :
    get_pr_open_closed_and_state
        ⟨none, some "2024-01-01T00:00:00Z", some "2024-01-02T00:00:00Z", none, none⟩
        = .ok (prStateOf
            ⟨none, some "2024-01-01T00:00:00Z", some "2024-01-02T00:00:00Z", none, none⟩
            (some ((dtSeconds ⟨2024, 1, 2, 0, 0, 0⟩ : Int)
              - (dtSeconds ⟨2024, 1, 1, 0, 0, 0⟩ : Int)))) ∧
      timeToMergeSeconds (some "2024-01-01T00:00:00Z") (some "2024-01-02T00:00:00Z")
        = .ok (some 86400) :=
  C6_time_to_merge_seconds _ "2024-01-01T00:00:00Z" "2024-01-02T00:00:00Z"
    ⟨2024, 1, 1, 0, 0, 0⟩ ⟨2024, 1, 2, 0, 0, 0⟩ rfl rfl (by decide) (by decide)

/-! ## Claim C7 -/

theorem mapM_pyInt_error_eq_valueError (l : List (List Char)) (x : RunError)
    (h : l.mapM (fun line =>
        match pyInt line with
        | some n => Except.ok n
        | none => Except.error RunError.valueError) = .error x) :
    x = .valueError := by
  induction l with
  | nil => cases h
  | cons a rest ih =>
    rw [List.mapM_cons] at h
    cases hpa : pyInt a with
    | none =>
      simp only [hpa, Bind.bind, Except.bind] at h
      exact (Except.error.injEq _ _).mp h.symm ▸ rfl
    | some n =>
      simp only [hpa, Bind.bind, Except.bind] at h
      cases hrest : rest.mapM (fun line =>
          match pyInt line with
          | some n => Except.ok n
          | none => Except.error RunError.valueError) with
      | error e =>
        rw [hrest] at h
        simp only [Except.bind] at h
        cases h
        exact ih hrest
      | ok bs =>
        rw [hrest] at h
        simp only [Except.bind, pure, Except.pure] at h
        cases h

/-- C7: `get_list_of_all_prs` re-raises a CalledProcessError carrying
the exit code, stdout and stderr exactly when the external pipeline
exits non-zero, and a zero exit with empty output (no PRs matched)
yields the empty list. -/
theorem C7_list_prs_error_and_empty (r : CmdResult) :
    (r.returncode ≠ 0 →
        get_list_of_all_prs r
          = .error (.calledProcessError r.returncode r.stdout r.stderr)) ∧
      (∀ c o e, get_list_of_all_prs r = .error (.calledProcessError c o e) →
        r.returncode ≠ 0) ∧
      (r.returncode = 0 → r.stdout = "" → get_list_of_all_prs r = .ok []) := by
  obtain ⟨rc, out, err⟩ := r
  refine ⟨?_, ?_, ?_⟩
  · intro h
    simp [get_list_of_all_prs, runCommand, h, Bind.bind, Except.bind]
  · intro c o e h hrc
    simp only at hrc
    subst hrc
    simp only [get_list_of_all_prs, runCommand, if_pos rfl, Bind.bind, Except.bind] at h
    cases mapM_pyInt_error_eq_valueError _ _ h
  · intro h1 h2
    simp only at h1 h2
    subst h1
    subst h2
    rfl

/-- Witness for C7 at a failing run and at an empty-output run. -/
theorem C7_witness :
    get_list_of_all_prs ⟨1, "out", "err"⟩
        = .error (.calledProcessError 1 "out" "err") ∧
      get_list_of_all_prs ⟨0, "", ""⟩ = .ok [] :=
  ⟨(C7_list_prs_error_and_empty ⟨1, "out", "err"⟩).1 (by decide),
    (C7_list_prs_error_and_empty ⟨0, "", ""⟩).2.2 rfl rfl⟩

/-! ## Claim C9 -/

/-- C9: when the custom-instructions file is absent, the function logs
a warning and returns None — the FileNotFoundError is caught, never
propagated. -/
theorem C9_missing_instructions_nonfatal (path : String) :
    get_code_review_instructions path .absent
      = (none,
          [.warning ("Custom instructions file " ++ path ++
            " not found. Using default instructions.")]) := rfl

/-! ## `input_output.py`: `write_csv` and `read_csv`

Python strings are modelled as `List Char` here because the CSV dialect
works character by character.  A row dictionary maps keys to values; a
value is `none` (Python `None`) or a string — the claim's "modulo
stringification" is captured by taking the written string value itself.

Dialect facts of the stdlib `csv` module used by `input_output.py`
(default `excel` dialect): delimiter `,`, quotechar `"`,
`QUOTE_MINIMAL`, `doublequote=True`, writer line terminator `\r\n`.
`write_csv` opens the file with `newline=''` (no translation on write);
`read_csv` opens without `newline=''`, so the file is read in
universal-newline mode (`\r\n` and lone `\r` both become `\n`). -/

abbrev PyStr := List Char

/-- A row dictionary: association list from key to value
(`none` = Python `None`). -/
abbrev Row := List (PyStr × Option PyStr)

/-- The keys of a row dict, in insertion order (`row.keys()`). -/
def rowKeys (row : Row) : List PyStr := row.map Prod.fst

/-- QUOTE_MINIMAL: a field is quoted iff it contains the delimiter, the
quote character, or a line-terminator character. -/
def needsQuote (s : PyStr) : Bool :=
  s.any (fun c => c = ',' ∨ c = '"' ∨ c = '\r' ∨ c = '\n')

/-- `doublequote=True`: each quote character inside a quoted field is
written twice. -/
def escQuote : PyStr → PyStr
  | [] => []
  | c :: rest => if c = '"' then '"' :: '"' :: escQuote rest else c :: escQuote rest

/-- One written cell. -/
def writeField (s : PyStr) : PyStr :=
  if needsQuote s then '"' :: (escQuote s ++ ['"']) else s

/-- Cells joined with the delimiter. -/
def joinFields : List PyStr → PyStr
  | [] => []
  | [f] => writeField f
  | f :: rest => writeField f ++ ',' :: joinFields rest

/-- One written record.  After joining, the C writer re-appends a
quoted empty field when a record with at least one field serialized to
zero characters (so the record is not mistaken for a blank line); that
happens exactly when the sole field is empty and unquoted.  A
zero-field record writes only the line terminator. -/
def writeRecord (fs : List PyStr) : PyStr :=
  if fs ≠ [] ∧ joinFields fs = [] then ['"', '"'] else joinFields fs

/-- The cell DictWriter writes for key `k` of `row`:
`rowdict.get(key, self.restval)` with `restval=""`, and the csv writer
renders `None` as the empty string. -/
def cellOf (row : Row) (k : PyStr) : PyStr :=
  match row.lookup k with
  | some (some v) => v
  | some none => []
  | none => []

/-- The writer's line terminator (default dialect). -/
def crlf : PyStr := ['\r', '\n']

/-- File content produced by `writer.writeheader()` followed by
`writer.writerows(data)` for the given fieldnames.  With
`extrasaction='raise'` a row key outside the fieldnames raises
`ValueError`; under this development's hypotheses rows never carry
extra keys, so the raising path is not modelled. -/
def writeContent (data : List Row) (keys : List PyStr) : PyStr :=
  (((keys :: data.map (fun row => keys.map (cellOf row))).map
    (fun r => writeRecord r ++ crlf))).flatten

/-- `write_csv(file_path, data)` as a filesystem transformer at
`file_path`: with empty `data` the function logs a warning and returns
before opening the file; otherwise the file is created/overwritten with
the rendered content, fieldnames taken from `data[0].keys()`. -/
def write_csv (data : List Row) (fs : Option PyStr) : Option PyStr :=
  if data.isEmpty then fs
  else some (writeContent data (rowKeys (data.headD [])))

/-- Universal-newline translation applied on read because `read_csv`
opens the file in text mode without `newline=''`: `\r\n` and a lone
`\r` both become `\n`. -/
def univNewlines : PyStr → PyStr
  | [] => []
  | '\r' :: '\n' :: rest => '\n' :: univNewlines rest
  | '\r' :: rest => '\n' :: univNewlines rest
  | c :: rest => c :: univNewlines rest

/-- The parser states of the stdlib csv reader (after newline
translation no `\r` reaches the parser, so the CRNL states are not
needed). -/
inductive CsvMode
  | startRecord
  | startField
  | inField
  | inQuoted
  | quoteInQuoted
  deriving DecidableEq, Repr

/-- The `csv.reader` state machine over the translated character
stream (default dialect, non-strict): `field` holds the current field
reversed, `record` the finished fields of the current record.  A blank
line yields the record `[]`.  In non-strict mode a quote closing a
quoted field followed by ordinary characters continues the field, and
end of data returns the pending field; `write_csv` output never ends
inside a quoted field, so the EOF-in-quote case (a `csv.Error` in the
C implementation) is modelled as returning the pending field and is
unreachable in this development. -/
def csvParse : CsvMode → PyStr → List PyStr → PyStr → List (List PyStr)
  | mode, field, record, [] =>
    match mode with
    | .startRecord => []
    | .startField => [record ++ [field.reverse]]
    | .inField => [record ++ [field.reverse]]
    | .inQuoted => [record ++ [field.reverse]]
    | .quoteInQuoted => [record ++ [field.reverse]]
  | mode, field, record, c :: rest =>
    match mode with
    | .startRecord =>
      if c = '\n' then [] :: csvParse .startRecord [] [] rest
      else if c = '"' then csvParse .inQuoted [] record rest
      else if c = ',' then csvParse .startField [] (record ++ [[]]) rest
      else csvParse .inField [c] record rest
    | .startField =>
      if c = '\n' then (record ++ [field.reverse]) :: csvParse .startRecord [] [] rest
      else if c = '"' then csvParse .inQuoted [] record rest
      else if c = ',' then csvParse .startField [] (record ++ [[]]) rest
      else csvParse .inField [c] record rest
    | .inField =>
      if c = '\n' then (record ++ [field.reverse]) :: csvParse .startRecord [] [] rest
      else if c = ',' then csvParse .startField [] (record ++ [field.reverse]) rest
      else csvParse .inField (c :: field) record rest
    | .inQuoted =>
      if c = '"' then csvParse .quoteInQuoted field record rest
      else csvParse .inQuoted (c :: field) record rest
    | .quoteInQuoted =>
      if c = '"' then csvParse .inQuoted ('"' :: field) record rest
      else if c = ',' then csvParse .startField [] (record ++ [field.reverse]) rest
      else if c = '\n' then (record ++ [field.reverse]) :: csvParse .startRecord [] [] rest
      else csvParse .inField (c :: field) record rest

/-- `dict(zip(fieldnames, row))` plus `restval=None` for missing
trailing fields.  A surplus of fields (row longer than the fieldnames)
is stored by DictReader under the `restkey` (`None`) — not
representable as a string key and never produced by `write_csv` output,
whose records have exactly `len(fieldnames)` fields — so surplus fields
are dropped here.  Duplicate fieldnames would make the later zip pair
win in the Python dict; fieldnames originate from a dict's keys and are
distinct in this development. -/
def dictRow : List PyStr → List PyStr → Row
  | [], _ => []
  | k :: ks, [] => (k, none) :: dictRow ks []
  | k :: ks, v :: vs => (k, some v) :: dictRow ks vs

/-- `read_csv(file_path)`: parse the translated stream with
`csv.DictReader`; the first parsed row gives the fieldnames (even when
blank), blank rows (`[]`) among the data are skipped, every other row
becomes a dict. -/
def read_csv (content : PyStr) : List Row :=
  match csvParse .startRecord [] [] (univNewlines content) with
  | [] => []
  | header :: rows =>
    (rows.filter (fun r => decide (r ≠ []))).map (fun r => dictRow header r)

/-! ## Claim C10 -/

/-- C10: `write_csv` called with an empty data list returns before
opening the file, so the filesystem state at `file_path` is unchanged,
whether the file existed or not. -/
theorem C10_write_csv_empty_noop (fs : Option PyStr) : write_csv [] fs = fs := rfl

/-! ## Claim C8 -/

/-- C8 as stated is false, in two ways.  (i) `read_csv` opens the file
without `newline=''`, so universal-newline translation rewrites a
carriage return inside a (non-null, quoted) field value: the one-row
table with value `"\r"` reads back with value `"\n"`.  (ii) a
zero-field row dictionary (uniform keys, vacuously) serializes to a
blank line, which DictReader skips: one row is written, zero read. -/
theorem C8_counterexample :
    (write_csv [[(['a'], some ['\r'])]] none
        = some (writeContent [[(['a'], some ['\r'])]] [['a']]) ∧
      ¬ ((read_csv (writeContent [[(['a'], some ['\r'])]] [['a']])).length
            = ([[(['a'], some ['\r'])]] : List Row).length ∧
          ((read_csv (writeContent [[(['a'], some ['\r'])]] [['a']])).getD 0 []).lookup ['a']
            = some (some ['\r']))) ∧
      (read_csv (writeContent [([] : Row)] [])).length ≠ [([] : Row)].length := by
  exact ⟨⟨rfl, by decide⟩, by decide⟩

/-! ### Round-trip lemmas: newline translation -/

theorem univNewlines_crlf (ys : PyStr) :
    univNewlines ('\r' :: '\n' :: ys) = '\n' :: univNewlines ys := rfl

theorem univNewlines_cons_of_ne {c : Char} (t : PyStr) (hc : c ≠ '\r') :
    univNewlines (c :: t) = c :: univNewlines t := by
  cases t with
  | nil => simp [univNewlines, hc]
  | cons d t2 => simp [univNewlines, hc]

theorem univNewlines_append_nocr (xs ys : PyStr) (h : '\r' ∉ xs) :
    univNewlines (xs ++ '\r' :: '\n' :: ys) = xs ++ '\n' :: univNewlines ys := by
  induction xs with
  | nil => exact univNewlines_crlf ys
  | cons c xs ih =>
    simp only [List.mem_cons, not_or] at h
    rw [List.cons_append, univNewlines_cons_of_ne _ (fun hh => h.1 hh.symm),
      ih h.2, List.cons_append]

/-! ### Round-trip lemmas: the writer emits no carriage return for
carriage-return-free fields -/

theorem not_mem_escQuote {s : PyStr} (h : '\r' ∉ s) : '\r' ∉ escQuote s := by
  induction s with
  | nil => simp [escQuote]
  | cons c rest ih =>
    simp only [List.mem_cons, not_or] at h
    simp only [escQuote]
    by_cases hc : c = '"'
    · rw [if_pos hc]
      simp only [List.mem_cons, not_or]
      exact ⟨by decide, by decide, ih h.2⟩
    · rw [if_neg hc]
      simp only [List.mem_cons, not_or]
      exact ⟨h.1, ih h.2⟩

theorem not_mem_writeField {s : PyStr} (h : '\r' ∉ s) : '\r' ∉ writeField s := by
  rw [writeField]
  by_cases hq : needsQuote s = true
  · rw [if_pos hq]
    intro hmem
    rcases List.mem_cons.mp hmem with hh | hmem2
    · exact absurd hh (by decide)
    · rcases List.mem_append.mp hmem2 with h2 | h3
      · exact not_mem_escQuote h h2
      · exact absurd (List.mem_singleton.mp h3) (by decide)
  · rw [if_neg hq]
    exact h

theorem not_mem_joinFields {r : List PyStr} (h : ∀ f ∈ r, '\r' ∉ f) :
    '\r' ∉ joinFields r := by
  induction r with
  | nil => simp [joinFields]
  | cons f rest ih =>
    cases rest with
    | nil =>
      simp only [joinFields]
      exact not_mem_writeField (h f (by simp))
    | cons g rest2 =>
      simp only [joinFields]
      intro hmem
      rcases List.mem_append.mp hmem with h1 | h2
      · exact not_mem_writeField (h f (by simp)) h1
      · rcases List.mem_cons.mp h2 with hh | h3
        · exact absurd hh (by decide)
        · exact ih (fun f' hf' => h f' (List.mem_cons_of_mem f hf')) h3

theorem not_mem_writeRecord {r : List PyStr} (h : ∀ f ∈ r, '\r' ∉ f) :
    '\r' ∉ writeRecord r := by
  rw [writeRecord]
  split
  · decide
  · exact not_mem_joinFields h

theorem univNewlines_flatten_records (rs : List (List PyStr))
    (h : ∀ r ∈ rs, ∀ f ∈ r, '\r' ∉ f) :
    univNewlines ((rs.map (fun r => writeRecord r ++ crlf)).flatten)
      = (rs.map (fun r => writeRecord r ++ ['\n'])).flatten := by
  induction rs with
  | nil => rfl
  | cons r rs ih =>
    simp only [crlf] at ih
    simp only [List.map_cons, List.flatten_cons, crlf, List.append_assoc, List.cons_append,
      List.nil_append]
    rw [univNewlines_append_nocr _ _ (not_mem_writeRecord (h r (by simp))),
      ih (fun r' hr' => h r' (List.mem_cons_of_mem r hr'))]

/-! ### Round-trip lemmas: the reader state machine inverts the writer -/

theorem needsQuote_eq_false_of_not {f : PyStr} (h : ¬ needsQuote f = true) :
    needsQuote f = false := by
  cases hnq : needsQuote f
  · rfl
  · exact absurd hnq h

theorem chars_of_not_needsQuote {f : PyStr} (hq : needsQuote f = false) :
    ∀ c ∈ f, ¬(c = ',' ∨ c = '"' ∨ c = '\r' ∨ c = '\n') := by
  intro c hc hor
  have h2 : needsQuote f = true := by
    unfold needsQuote
    exact List.any_eq_true.mpr ⟨c, hc, decide_eq_true hor⟩
  rw [hq] at h2
  cases h2

theorem csvParse_inField_consume (f : PyStr)
    (hf : ∀ c ∈ f, ¬(c = ',' ∨ c = '"' ∨ c = '\r' ∨ c = '\n')) :
    ∀ (acc : PyStr) (record : List PyStr) (t : PyStr),
      csvParse .inField acc record (f ++ t)
        = csvParse .inField (f.reverse ++ acc) record t := by
  induction f with
  | nil =>
    intro acc record t
    simp
  | cons c f ih =>
    intro acc record t
    have hc := hf c (List.mem_cons_self c f)
    push_neg at hc
    obtain ⟨h1, h2, h3, h4⟩ := hc
    rw [List.cons_append]
    simp only [csvParse]
    rw [if_neg h4, if_neg h1]
    rw [ih (fun c' hc' => hf c' (List.mem_cons_of_mem c hc')) (c :: acc) record t,
      List.reverse_cons, List.append_assoc, List.singleton_append]

theorem csvParse_inQuoted_consume (f : PyStr) :
    ∀ (acc : PyStr) (record : List PyStr) (t : PyStr),
      csvParse .inQuoted acc record (escQuote f ++ t)
        = csvParse .inQuoted (f.reverse ++ acc) record t := by
  induction f with
  | nil =>
    intro acc record t
    simp [escQuote]
  | cons c f ih =>
    intro acc record t
    by_cases hc : c = '"'
    · subst hc
      show csvParse .inQuoted ('"' :: acc) record (escQuote f ++ t) = _
      rw [ih ('"' :: acc) record t, List.reverse_cons, List.append_assoc,
        List.singleton_append]
    · simp only [escQuote, if_neg hc, List.cons_append]
      simp only [csvParse]
      rw [if_neg hc]
      rw [ih (c :: acc) record t, List.reverse_cons, List.append_assoc,
        List.singleton_append]

theorem csvParse_startField_comma (f : PyStr) (record : List PyStr) (rest : PyStr) :
    csvParse .startField [] record (writeField f ++ ',' :: rest)
      = csvParse .startField [] (record ++ [f]) rest := by
  rw [writeField]
  by_cases hq : needsQuote f = true
  · rw [if_pos hq]
    have hsh : ('"' :: (escQuote f ++ ['"'])) ++ ',' :: rest
        = '"' :: (escQuote f ++ ('"' :: ',' :: rest)) := by
      simp [List.append_assoc]
    rw [hsh]
    show csvParse .inQuoted [] record (escQuote f ++ ('"' :: ',' :: rest)) = _
    rw [csvParse_inQuoted_consume f [] record ('"' :: ',' :: rest)]
    have hstep : csvParse .inQuoted (f.reverse ++ []) record ('"' :: ',' :: rest)
        = csvParse .startField [] (record ++ [(f.reverse ++ []).reverse]) rest := rfl
    rw [hstep, List.append_nil, List.reverse_reverse]
  · rw [if_neg hq]
    have hchars := chars_of_not_needsQuote (needsQuote_eq_false_of_not hq)
    cases f with
    | nil =>
      show csvParse .startField [] (record ++ [[]]) rest = _
      rfl
    | cons c f2 =>
      have hc := hchars c (List.mem_cons_self c f2)
      push_neg at hc
      obtain ⟨h1, h2, h3, h4⟩ := hc
      rw [List.cons_append]
      simp only [csvParse]
      rw [if_neg h4, if_neg h2, if_neg h1]
      rw [csvParse_inField_consume f2
        (fun c' hc' => hchars c' (List.mem_cons_of_mem c hc')) [c] record (',' :: rest)]
      show csvParse .startField [] (record ++ [(f2.reverse ++ [c]).reverse]) rest = _
      have hrev : (f2.reverse ++ [c]).reverse = c :: f2 := by simp
      rw [hrev]

theorem csvParse_startField_nl (f : PyStr) (record : List PyStr) (rest : PyStr) :
    csvParse .startField [] record (writeField f ++ '\n' :: rest)
      = (record ++ [f]) :: csvParse .startRecord [] [] rest := by
  rw [writeField]
  by_cases hq : needsQuote f = true
  · rw [if_pos hq]
    have hsh : ('"' :: (escQuote f ++ ['"'])) ++ '\n' :: rest
        = '"' :: (escQuote f ++ ('"' :: '\n' :: rest)) := by
      simp [List.append_assoc]
    rw [hsh]
    show csvParse .inQuoted [] record (escQuote f ++ ('"' :: '\n' :: rest)) = _
    rw [csvParse_inQuoted_consume f [] record ('"' :: '\n' :: rest)]
    have hstep : csvParse .inQuoted (f.reverse ++ []) record ('"' :: '\n' :: rest)
        = (record ++ [(f.reverse ++ []).reverse]) :: csvParse .startRecord [] [] rest := rfl
    rw [hstep, List.append_nil, List.reverse_reverse]
  · rw [if_neg hq]
    have hchars := chars_of_not_needsQuote (needsQuote_eq_false_of_not hq)
    cases f with
    | nil =>
      show (record ++ [[]]) :: csvParse .startRecord [] [] rest = _
      rfl
    | cons c f2 =>
      have hc := hchars c (List.mem_cons_self c f2)
      push_neg at hc
      obtain ⟨h1, h2, h3, h4⟩ := hc
      rw [List.cons_append]
      simp only [csvParse]
      rw [if_neg h4, if_neg h2, if_neg h1]
      rw [csvParse_inField_consume f2
        (fun c' hc' => hchars c' (List.mem_cons_of_mem c hc')) [c] record ('\n' :: rest)]
      show (record ++ [(f2.reverse ++ [c]).reverse]) :: csvParse .startRecord [] [] rest = _
      have hrev : (f2.reverse ++ [c]).reverse = c :: f2 := by simp
      rw [hrev]

theorem writeField_eq_nil {f : PyStr} (h : writeField f = []) : f = [] := by
  rw [writeField] at h
  by_cases hq : needsQuote f = true
  · rw [if_pos hq] at h
    cases h
  · rwa [if_neg hq] at h

theorem joinFields_eq_nil {fs : List PyStr} (hne : fs ≠ []) (h : joinFields fs = []) :
    fs = [[]] := by
  cases fs with
  | nil => cases hne rfl
  | cons f fs =>
    cases fs with
    | nil =>
      simp only [joinFields] at h
      rw [writeField_eq_nil h]
    | cons g fs2 =>
      simp only [joinFields, List.append_eq_nil] at h
      exact absurd h.2 (by simp)

theorem csvParse_startField_join (fs : List PyStr) :
    fs ≠ [] →
    ∀ (record : List PyStr) (rest : PyStr),
      csvParse .startField [] record (joinFields fs ++ '\n' :: rest)
        = (record ++ fs) :: csvParse .startRecord [] [] rest := by
  induction fs with
  | nil => intro hne; cases hne rfl
  | cons f fs ih =>
    intro _ record rest
    cases fs with
    | nil =>
      simp only [joinFields]
      exact csvParse_startField_nl f record rest
    | cons g fs2 =>
      simp only [joinFields]
      have hsh : (writeField f ++ ',' :: joinFields (g :: fs2)) ++ '\n' :: rest
          = writeField f ++ ',' :: (joinFields (g :: fs2) ++ '\n' :: rest) := by
        simp [List.append_assoc]
      rw [hsh, csvParse_startField_comma f record _]
      rw [ih (by simp) (record ++ [f]) rest]
      rw [List.append_assoc, List.singleton_append]

theorem csvParse_startField_record (fs : List PyStr) :
    fs ≠ [] →
    ∀ (record : List PyStr) (rest : PyStr),
      csvParse .startField [] record (writeRecord fs ++ '\n' :: rest)
        = (record ++ fs) :: csvParse .startRecord [] [] rest := by
  intro hne record rest
  rw [writeRecord]
  split
  · rename_i hcond
    have hfs : fs = [[]] := joinFields_eq_nil hcond.1 hcond.2
    subst hfs
    rfl
  · exact csvParse_startField_join fs hne record rest

theorem writeField_head_ne_nl {f : PyStr} {c : Char} {cs : PyStr}
    (h : writeField f = c :: cs) : c ≠ '\n' := by
  rw [writeField] at h
  by_cases hq : needsQuote f = true
  · rw [if_pos hq] at h
    injection h with h1 _
    rw [← h1]
    decide
  · rw [if_neg hq] at h
    have hc := chars_of_not_needsQuote (needsQuote_eq_false_of_not hq) c
      (h ▸ List.mem_cons_self c cs)
    push_neg at hc
    exact hc.2.2.2

theorem writeRecord_head (fs : List PyStr) (hne : fs ≠ []) :
    ∃ c cs, writeRecord fs = c :: cs ∧ c ≠ '\n' := by
  rw [writeRecord]
  split
  · exact ⟨'"', ['"'], rfl, by decide⟩
  · rename_i hcond
    have hjne : joinFields fs ≠ [] := fun hval => hcond ⟨hne, hval⟩
    cases fs with
    | nil => cases hne rfl
    | cons f fs =>
      cases fs with
      | nil =>
        simp only [joinFields] at hjne ⊢
        cases hwf : writeField f with
        | nil => exact absurd hwf hjne
        | cons c cs => exact ⟨c, cs, rfl, writeField_head_ne_nl hwf⟩
      | cons g fs2 =>
        simp only [joinFields]
        cases hwf : writeField f with
        | nil =>
          refine ⟨',', joinFields (g :: fs2), ?_, by decide⟩
          rw [List.nil_append]
        | cons c cs =>
          refine ⟨c, cs ++ ',' :: joinFields (g :: fs2), ?_, writeField_head_ne_nl hwf⟩
          rw [List.cons_append]

theorem csvParse_startRecord_eq_startField (c : Char) (t : PyStr) (hc : c ≠ '\n') :
    csvParse .startRecord [] [] (c :: t) = csvParse .startField [] [] (c :: t) := by
  simp only [csvParse]
  rw [if_neg hc, if_neg hc]

theorem csvParse_flatten_records (rs : List (List PyStr)) :
    (∀ r ∈ rs, r ≠ []) → (∀ r ∈ rs, ∀ f ∈ r, '\r' ∉ f) →
    csvParse .startRecord [] [] ((rs.map (fun r => writeRecord r ++ ['\n'])).flatten)
      = rs := by
  induction rs with
  | nil => intro _ _; rfl
  | cons r rs ih =>
    intro hne hcr
    simp only [List.map_cons, List.flatten_cons, List.append_assoc, List.singleton_append]
    obtain ⟨c, cs, hhead, hcne⟩ := writeRecord_head r (hne r (by simp))
    rw [hhead, List.cons_append, csvParse_startRecord_eq_startField c _ hcne,
      ← List.cons_append, ← hhead,
      csvParse_startField_record r (hne r (by simp)) [] _,
      ih (fun r' h' => hne r' (List.mem_cons_of_mem r h'))
        (fun r' h' => hcr r' (List.mem_cons_of_mem r h')),
      List.nil_append]

/-! ### Round-trip lemmas: DictReader row assembly -/

theorem filter_all_of_true {α : Type} (p : α → Bool) (l : List α)
    (h : ∀ a ∈ l, p a = true) : l.filter p = l := by
  induction l with
  | nil => rfl
  | cons a l ih =>
    rw [List.filter_cons, if_pos (h a (List.mem_cons_self a l)),
      ih (fun a' ha' => h a' (List.mem_cons_of_mem a ha'))]

theorem dictRow_map (keys : List PyStr) (f : PyStr → PyStr) :
    dictRow keys (keys.map f) = keys.map (fun k => (k, some (f k))) := by
  induction keys with
  | nil => rfl
  | cons k ks ih => simp [dictRow, ih]

theorem lookup_map_value (keys : List PyStr) (f : PyStr → PyStr) (k : PyStr)
    (hk : k ∈ keys) :
    (keys.map (fun k' => (k', some (f k')))).lookup k = some (some (f k)) := by
  induction keys with
  | nil => cases hk
  | cons k1 ks ih =>
    rw [List.map_cons]
    by_cases hbeq : (k == k1) = true
    · have heq : k = k1 := eq_of_beq hbeq
      subst heq
      simp [List.lookup]
    · have hb : (k == k1) = false := by
        cases hb2 : (k == k1)
        · rfl
        · exact absurd hb2 hbeq
      rcases List.mem_cons.mp hk with heq | hmem
      · exact absurd (beq_iff_eq.mpr heq) hbeq
      · simp [List.lookup, hb, ih hmem]

theorem lookup_pair_mem {row : Row} {k : PyStr} {x : Option PyStr}
    (h : row.lookup k = some x) : (k, x) ∈ row := by
  induction row with
  | nil => cases h
  | cons p rest ih =>
    obtain ⟨k1, v1⟩ := p
    by_cases hbeq : (k == k1) = true
    · have heq : k = k1 := eq_of_beq hbeq
      subst heq
      simp [List.lookup] at h
      rw [← h]
      exact List.mem_cons_self _ _
    · have hb : (k == k1) = false := by
        cases hb2 : (k == k1)
        · rfl
        · exact absurd hb2 hbeq
      simp only [List.lookup, hb] at h
      exact List.mem_cons_of_mem _ (ih h)

theorem mem_rowKeys_of_lookup_some {row : Row} {k : PyStr} {x : Option PyStr}
    (h : row.lookup k = some x) : k ∈ rowKeys row :=
  List.mem_map_of_mem Prod.fst (lookup_pair_mem h)

theorem getD_map_of_lt {α β : Type} (f : α → β) (l : List α) (d : α) (d' : β) :
    ∀ i, i < l.length → (l.map f).getD i d' = f (l.getD i d) := by
  induction l with
  | nil => intro i hi; exact absurd hi (Nat.not_lt_zero i)
  | cons a l ih =>
    intro i hi
    cases i with
    | zero => rfl
    | succ n => exact ih n (Nat.lt_of_succ_lt_succ hi)

theorem getD_mem_of_lt {α : Type} (l : List α) (d : α) :
    ∀ i, i < l.length → l.getD i d ∈ l := by
  induction l with
  | nil => intro i hi; exact absurd hi (Nat.not_lt_zero i)
  | cons a l ih =>
    intro i hi
    cases i with
    | zero => exact List.mem_cons_self a l
    | succ n => exact List.mem_cons_of_mem a (ih n (Nat.lt_of_succ_lt_succ hi))

/-- C8 (amended): for a non-empty table of row dictionaries whose keys
are drawn from the (non-empty, distinct) fieldnames of the first row,
with no carriage return in any key or non-null value, writing with
`write_csv` and reading back with `read_csv` reproduces the row count
and every non-null field value at the same row index (values modulo
stringification, as read back they are the written strings).  The
carriage-return restriction is forced by `read_csv` opening the file
without `newline=''`; the at-least-one-column restriction by DictReader
skipping the blank lines a zero-field row writes. -/
theorem C8_roundtrip (data : List Row) (keys : List PyStr)
    (hne : data ≠ [])
    (hkeys : keys = rowKeys (data.headD []))
    (hkeysne : keys ≠ [])
    (hnodup : keys.Nodup)
    (hsub : ∀ row ∈ data, ∀ k ∈ rowKeys row, k ∈ keys)
    (hkeycr : ∀ k ∈ keys, '\r' ∉ k)
    (hvalcr : ∀ row ∈ data, ∀ p ∈ row, ∀ v, p.2 = some v → '\r' ∉ v) :
    (∀ fs, write_csv data fs = some (writeContent data keys)) ∧
      (read_csv (writeContent data keys)).length = data.length ∧
      ∀ i k v, i < data.length →
        (data.getD i []).lookup k = some (some v) →
        ((read_csv (writeContent data keys)).getD i []).lookup k = some (some v) := by
  have hcellcr : ∀ row ∈ data, ∀ k ∈ keys, '\r' ∉ cellOf row k := by
    intro row hrow k _
    cases hlook : row.lookup k with
    | none => simp [cellOf, hlook]
    | some x =>
      cases x with
      | none => simp [cellOf, hlook]
      | some v =>
        simp only [cellOf, hlook]
        exact hvalcr row hrow (k, some v) (lookup_pair_mem hlook) v rfl
  have hcr_rs : ∀ r ∈ keys :: data.map (fun row => keys.map (cellOf row)),
      ∀ f ∈ r, '\r' ∉ f := by
    intro r hr
    rcases List.mem_cons.mp hr with rfl | hmem
    · exact hkeycr
    · obtain ⟨row, hrow, rfl⟩ := List.mem_map.mp hmem
      intro f hf
      obtain ⟨k, hk, rfl⟩ := List.mem_map.mp hf
      exact hcellcr row hrow k hk
  have hne_rs : ∀ r ∈ keys :: data.map (fun row => keys.map (cellOf row)), r ≠ [] := by
    intro r hr
    rcases List.mem_cons.mp hr with rfl | hmem
    · exact hkeysne
    · obtain ⟨row, _, rfl⟩ := List.mem_map.mp hmem
      intro hnil
      exact hkeysne (List.map_eq_nil_iff.mp hnil)
  have hread : read_csv (writeContent data keys)
      = data.map (fun row => dictRow keys (keys.map (cellOf row))) := by
    have hfilter : (data.map (fun row => keys.map (cellOf row))).filter
        (fun r => decide (r ≠ [])) = data.map (fun row => keys.map (cellOf row)) := by
      refine filter_all_of_true _ _ ?_
      intro r hr
      exact decide_eq_true (hne_rs r (List.mem_cons_of_mem _ hr))
    rw [read_csv, writeContent]
    rw [univNewlines_flatten_records _ hcr_rs, csvParse_flatten_records _ hne_rs hcr_rs]
    show ((data.map (fun row => keys.map (cellOf row))).filter
        (fun r => decide (r ≠ []))).map (fun r => dictRow keys r) = _
    rw [hfilter, List.map_map]
    rfl
  refine ⟨?_, ?_, ?_⟩
  · intro fs
    rw [write_csv, if_neg (by simpa [List.isEmpty_iff] using hne), ← hkeys]
  · rw [hread, List.length_map]
  · intro i k v hi hlook
    rw [hread, getD_map_of_lt _ data [] [] i hi, dictRow_map]
    have hkmem : k ∈ keys :=
      hsub (data.getD i []) (getD_mem_of_lt data [] i hi) k
        (mem_rowKeys_of_lookup_some hlook)
    rw [lookup_map_value keys (cellOf (data.getD i [])) k hkmem]
    simp only [cellOf, hlook]

/-- Witness for C8 on a concrete two-column table with a null cell. -/
theorem C8_witness :
    (∀ fs, write_csv [[(['a'], some ['x']), (['b'], none)]] fs
        = some (writeContent [[(['a'], some ['x']), (['b'], none)]] [['a'], ['b']])) ∧
      (read_csv (writeContent [[(['a'], some ['x']), (['b'], none)]] [['a'], ['b']])).length
        = ([[(['a'], some ['x']), (['b'], none)]] : List Row).length ∧
      ∀ i k v, i < ([[(['a'], some ['x']), (['b'], none)]] : List Row).length →
        ((([[(['a'], some ['x']), (['b'], none)]] : List Row).getD i []).lookup k
          = some (some v)) →
        (((read_csv (writeContent [[(['a'], some ['x']), (['b'], none)]]
            [['a'], ['b']])).getD i []).lookup k = some (some v)) :=
  C8_roundtrip [[(['a'], some ['x']), (['b'], none)]] [['a'], ['b']]
    (by decide) (by decide) (by decide) (by decide) (by decide) (by decide) (by decide)

end Dapka
